import Mathlib

/-!
Shallow embedding of the text-digest core of `src/app.py`: the extractive
summarizer `quick_summarize` (lines 158-180) and the keyword ranker
`top_words` (lines 182-185), together with the `STOPWORDS` constant
(lines 27-29).

Strings are modelled over their character lists.  The Python regular
expressions are replaced by explicit scanners over ASCII characters
(the spec fixes the module as locale-naive ASCII), and the CPython sorts
are replaced by insertion sorts that place elements exactly where the
stable CPython sort does.
-/

namespace App

/-- ASCII whitespace: the characters that Python `\s`, `str.split` and
`str.strip` treat as separators on the ASCII plane (space, tab, newline,
carriage return, vertical tab, form feed). -/
def isPySpace (c : Char) : Bool :=
  c == ' ' || c == '\t' || c == '\n' || c == '\r' || c.toNat == 11 || c.toNat == 12

/-- Terminal punctuation of the sentence-split regex `(?<=[.!?])\s+`. -/
def isTermPunct (c : Char) : Bool :=
  c == '.' || c == '!' || c == '?'

/-- A character matched by the token regex class `[A-Za-z']`
(codepoint 39 is the apostrophe). -/
def isWordChar (c : Char) : Bool :=
  c.isAlpha || c.toNat == 39

/-- Python `str.strip()`: drop leading and trailing whitespace. -/
def pyStrip (cs : List Char) : List Char :=
  ((cs.dropWhile isPySpace).reverse.dropWhile isPySpace).reverse

/-- Maximal runs of characters satisfying `p`; the accumulator `cur` holds
the current run reversed.  `runs p` is `re.findall` for the one-character
class `p`, and also `str.split()` for `p` = non-whitespace. -/
def runsGo (p : Char → Bool) : List Char → List Char → List (List Char)
  | cur, [] => if cur.isEmpty then [] else [cur.reverse]
  | cur, c :: rest =>
    if p c then runsGo p (c :: cur) rest
    else if cur.isEmpty then runsGo p [] rest
    else cur.reverse :: runsGo p [] rest

def runs (p : Char → Bool) (cs : List Char) : List (List Char) :=
  runsGo p [] cs

/-- `len(text.split())`: the number of maximal non-whitespace runs. -/
def wordCount (text : String) : Nat :=
  (runs (fun c => !(isPySpace c)) text.toList).length

/-- `[w.lower() for w in re.findall(r"[A-Za-z']+", text)]`.  Tokens only
contain `[A-Za-z']`, where `str.lower` is the ASCII `Char.toLower`. -/
def tokenize (text : String) : List String :=
  (runs isWordChar text.toList).map (fun cs => String.mk (cs.map Char.toLower))

/-- The `STOPWORDS` constant of app.py, in source order. -/
def STOPWORDS : List String :=
  ["a", "an", "and", "are", "as", "at", "be", "by", "for", "from", "has", "he",
   "in", "is", "it", "its", "of", "on", "that", "the", "to", "was", "were",
   "will", "with", "your", "you", "i", "me", "my", "we", "our", "theirs", "ours"]

/-- The token list of a document with stopwords removed: the list both
functions build their `Counter` from. -/
def filteredWords (text : String) : List String :=
  (tokenize text).filter (fun w => !(STOPWORDS.contains w))

/-- Sentence score `sum(freq.get(w, 0) for w in sw)`: `freq` is the counter
of `filtered`, so `freq.get w 0` is the number of occurrences of `w` in
`filtered`; `sw` are the tokens of the sentence, not deduplicated. -/
def sentenceScore (filtered : List String) (s : String) : Nat :=
  ((tokenize s).map (fun w => filtered.count w)).sum

/-- One pass of `re.split(r'(?<=[.!?])\s+', text)`.  When `skipping` is set
the scanner is inside the whitespace run of a delimiter; `prev` is the
previous character of the original string (the lookbehind), `cur` the
current piece reversed.  A delimiter starts exactly where the previous
character is `.`, `!` or `?` and the current one is whitespace, and it
extends over the maximal whitespace run. -/
def splitGo : Bool → Char → List Char → List Char → List (List Char)
  | _, _, cur, [] => [cur.reverse]
  | true, _, cur, c :: rest =>
    if isPySpace c then splitGo true c cur rest
    else splitGo false c (c :: cur) rest
  | false, prev, cur, c :: rest =>
    if isTermPunct prev && isPySpace c then cur.reverse :: splitGo true c [] rest
    else splitGo false c (c :: cur) rest

/-- `re.split(r'(?<=[.!?])\s+', ·)` over a character list.  The initial
`prev` is a space, which is not terminal punctuation, so no delimiter can
start at position 0 (the lookbehind needs a preceding character). -/
def splitSentences (cs : List Char) : List String :=
  (splitGo false ' ' [] cs).map (fun l => String.mk l)

/-- Ascending lexicographic order on the `(score, index, sentence)` triples
of `quick_summarize`, the order Python compares these triples with
(`String` carries the Mathlib linear order, which is lexicographic on
characters like the CPython one). -/
def tripleLe (a b : Nat × Nat × String) : Prop :=
  a.1 < b.1 ∨ (a.1 = b.1 ∧ (a.2.1 < b.2.1 ∨ (a.2.1 = b.2.1 ∧ a.2.2 ≤ b.2.2)))

instance (a b : Nat × Nat × String) : Decidable (tripleLe a b) := by
  unfold tripleLe
  exact inferInstance

/-- Descending stable insertion: `x` is placed in front of the first element
that is `tripleLe x`, so after every strictly greater element and in front
of equal ones, which is where the stable `sorted(..., reverse=True)` of
CPython leaves the earlier of two equal elements. -/
def insertTriple (x : Nat × Nat × String) :
    List (Nat × Nat × String) → List (Nat × Nat × String)
  | [] => [x]
  | y :: ys => if tripleLe y x then x :: y :: ys else y :: insertTriple x ys

/-- `sorted(scores, reverse=True)`. -/
def sortTriples : List (Nat × Nat × String) → List (Nat × Nat × String)
  | [] => []
  | x :: xs => insertTriple x (sortTriples xs)

/-- Python slice `l[:k]` for an `int` k: a nonnegative `k` keeps the first
`k` elements, a negative `k` drops the last `|k|`. -/
def pySlice {α : Type} (k : Int) (l : List α) : List α :=
  if 0 ≤ k then l.take k.toNat else l.take (l.length - (-k).toNat)

/-- Ascending stable insertion by original index, the
`sorted(..., key=lambda x: x[0])` of app.py. -/
def insertChosen (x : Nat × String) : List (Nat × String) → List (Nat × String)
  | [] => [x]
  | y :: ys => if x.1 ≤ y.1 then x :: y :: ys else y :: insertChosen x ys

def sortChosen : List (Nat × String) → List (Nat × String)
  | [] => []
  | x :: xs => insertChosen x (sortChosen xs)

/-- The list `scores` of `quick_summarize`: one `(score, index, sentence)`
triple per sentence of the stripped text, built by `enumerate`. -/
def scoredSentences (text : String) : List (Nat × Nat × String) :=
  (splitSentences (pyStrip text.toList)).enum.map
    (fun p => (sentenceScore (filteredWords text) p.2, p.1, p.2))

/-- The list `chosen` of `quick_summarize`: the index-sentence pairs whose
sentence text occurs in the top slice, re-sorted by original index.  The
summary is these sentences in this order. -/
def summarySentences (text : String) (max_sentences : Int) : List (Nat × String) :=
  let scores := scoredSentences text
  let top := (pySlice max_sentences (sortTriples scores)).map (fun t => t.2.2)
  sortChosen ((scores.filter (fun t => top.contains t.2.2)).map (fun t => (t.2.1, t.2.2)))

/-- app.py `quick_summarize` (lines 158-180). -/
def quick_summarize (text : String) (max_sentences : Int) : String :=
  if text = "" ∨ wordCount text < 20 then text
  else if ((splitSentences (pyStrip text.toList)).length : Int) ≤ max_sentences then text
  else String.intercalate " " ((summarySentences text max_sentences).map (fun p => p.2))

/-- First-occurrence order of the distinct elements of `l`: the key order of
a CPython `Counter` (a dict) built by iterating `l`. -/
def firstKeys : List String → List String
  | [] => []
  | w :: ws => w :: (firstKeys ws).filter (fun v => !(v == w))

/-- `Counter(l).items()` as a list: keys in insertion (= first-occurrence)
order, each with its total number of occurrences. -/
def counter (l : List String) : List (String × Nat) :=
  (firstKeys l).map (fun w => (w, l.count w))

/-- Descending stable insertion by count: `x` is placed after every element
of strictly greater count and in front of equal-count ones, which is where
the stable descending sort of CPython leaves the earlier element. -/
def insertCount (x : String × Nat) : List (String × Nat) → List (String × Nat)
  | [] => [x]
  | y :: ys => if y.2 ≤ x.2 then x :: y :: ys else y :: insertCount x ys

def sortByCountDesc : List (String × Nat) → List (String × Nat)
  | [] => []
  | x :: xs => insertCount x (sortByCountDesc xs)

/-- app.py `top_words`: `Counter(words).most_common(n)`.  For `n ≥ 0`
CPython `most_common` equals the stable descending-by-count sort of the
items truncated to `n`; for negative `n`, `heapq.nlargest` returns the
empty list, which `Int.toNat` reproduces. -/
def top_words (text : String) (n : Int) : List (String × Nat) :=
  (sortByCountDesc (counter (filteredWords text))).take n.toNat

/-- Index of the first occurrence of `w` in `l` (length of `l` if absent). -/
def firstIdx (w : String) : List String → Nat
  | [] => 0
  | v :: vs => if v = w then 0 else firstIdx w vs + 1

/-- The order `top_words` output obeys: count strictly descending, and
first-occurrence order in the token stream of the document among equal
counts. -/
def tieOrdered (text : String) (a b : String × Nat) : Prop :=
  b.2 < a.2 ∨
    (a.2 = b.2 ∧ firstIdx a.1 (tokenize text) < firstIdx b.1 (tokenize text))

/-- The filtered score list of `quick_summarize` before the index re-sort:
the triples whose sentence text occurs in the top slice.  `summarySentences`
is definitionally its index-sorted pair projection. -/
def chosenPre (text : String) (k : Int) : List (Nat × Nat × String) :=
  (scoredSentences text).filter
    (fun t => ((pySlice k (sortTriples (scoredSentences text))).map (fun t => t.2.2)).contains t.2.2)

/-- Document with a score tie between its second and third sentence: the
first sentence consists of stopwords only (score 0, it only serves the
20-word minimum), the other two score 9 each. -/
def C1doc : String :=
  "the the the the the the the the the the the the the the the the the the the the. cat cat y. cat cat z."

/-- Document whose first ten sentences are the same string: the `s in top`
membership test of `quick_summarize` matches all of them once one copy is
selected.  The last sentence is all stopwords and scores 0. -/
def C2doc : String :=
  "alpha beta. alpha beta. alpha beta. alpha beta. alpha beta. alpha beta. alpha beta. alpha beta. alpha beta. alpha beta. the the the the."

/-- Copy of the tie document for the clamping claim. -/
def C3doc : String :=
  "the the the the the the the the the the the the the the the the the the the the. cat cat y. cat cat z."

/-- Eleven copies of the same sentence separated by single spaces: every
copy is selected and rejoining them reproduces the document exactly,
without taking either early-return branch. -/
def C4doc : String :=
  "alpha beta. alpha beta. alpha beta. alpha beta. alpha beta. alpha beta. alpha beta. alpha beta. alpha beta. alpha beta. alpha beta."

/-- Copy of the tie document for the order-preservation claim. -/
def C7doc : String :=
  "the the the the the the the the the the the the the the the the the the the the. cat cat y. cat cat z."

/-- The apostrophe character (codepoint 39). -/
def apostrophe : Char := Char.ofNat 39

/-- A run of three apostrophes, which the token regex accepts as a token. -/
def apostropheRun : String := String.mk [apostrophe, apostrophe, apostrophe]

/-- A document in which the apostrophe-only run occurs twice as a
standalone word. -/
def C10doc : String := String.intercalate " " [apostropheRun, apostropheRun, "cat"]

/-! ### Order lemmas for the score sort -/

theorem tripleLe_total (a b : Nat × Nat × String) : tripleLe a b ∨ tripleLe b a := by
  unfold tripleLe
  rcases Nat.lt_trichotomy a.1 b.1 with h | h | h
  · exact Or.inl (Or.inl h)
  · rcases Nat.lt_trichotomy a.2.1 b.2.1 with h2 | h2 | h2
    · exact Or.inl (Or.inr ⟨h, Or.inl h2⟩)
    · rcases le_total a.2.2 b.2.2 with h3 | h3
      · exact Or.inl (Or.inr ⟨h, Or.inr ⟨h2, h3⟩⟩)
      · exact Or.inr (Or.inr ⟨h.symm, Or.inr ⟨h2.symm, h3⟩⟩)
    · exact Or.inr (Or.inr ⟨h.symm, Or.inl h2⟩)
  · exact Or.inr (Or.inl h)

theorem tripleLe_trans {a b c : Nat × Nat × String}
    (h1 : tripleLe a b) (h2 : tripleLe b c) : tripleLe a c := by
  unfold tripleLe at h1 h2 ⊢
  rcases h1 with h1 | ⟨e1, h1⟩
  · rcases h2 with h2 | ⟨e2, _⟩
    · exact Or.inl (h1.trans h2)
    · exact Or.inl (by omega)
  · rcases h2 with h2 | ⟨e2, h2⟩
    · exact Or.inl (by omega)
    · refine Or.inr ⟨e1.trans e2, ?_⟩
      rcases h1 with h1 | ⟨f1, g1⟩
      · rcases h2 with h2 | ⟨f2, _⟩
        · exact Or.inl (h1.trans h2)
        · exact Or.inl (by omega)
      · rcases h2 with h2 | ⟨f2, g2⟩
        · exact Or.inl (by omega)
        · exact Or.inr ⟨f1.trans f2, g1.trans g2⟩

theorem mem_insertTriple {x y : Nat × Nat × String} :
    ∀ {l : List (Nat × Nat × String)}, y ∈ insertTriple x l ↔ y = x ∨ y ∈ l := by
  intro l
  induction l with
  | nil => simp [insertTriple]
  | cons a as ih =>
    unfold insertTriple
    split_ifs with h
    · constructor
      · intro hy
        rcases List.mem_cons.mp hy with rfl | hy
        · exact Or.inl rfl
        · exact Or.inr hy
      · intro hy
        rcases hy with rfl | hy
        · exact List.mem_cons_self _ _
        · exact List.mem_cons_of_mem _ hy
    · constructor
      · intro hy
        rcases List.mem_cons.mp hy with rfl | hy
        · exact Or.inr (List.mem_cons_self _ _)
        · rcases ih.mp hy with rfl | hy
          · exact Or.inl rfl
          · exact Or.inr (List.mem_cons_of_mem _ hy)
      · intro hy
        rcases hy with rfl | hy
        · exact List.mem_cons_of_mem _ (ih.mpr (Or.inl rfl))
        · rcases List.mem_cons.mp hy with rfl | hy
          · exact List.mem_cons_self _ _
          · exact List.mem_cons_of_mem _ (ih.mpr (Or.inr hy))

theorem pairwise_insertTriple {x : Nat × Nat × String} :
    ∀ {l : List (Nat × Nat × String)}, l.Pairwise (fun a b => tripleLe b a) →
      (insertTriple x l).Pairwise (fun a b => tripleLe b a) := by
  intro l
  induction l with
  | nil =>
    intro _
    simp [insertTriple]
  | cons y ys ih =>
    intro hl
    rw [List.pairwise_cons] at hl
    unfold insertTriple
    split_ifs with h
    · refine List.Pairwise.cons ?_ (List.Pairwise.cons hl.1 hl.2)
      intro z hz
      rcases List.mem_cons.mp hz with rfl | hz
      · exact h
      · exact tripleLe_trans (hl.1 z hz) h
    · refine List.Pairwise.cons ?_ (ih hl.2)
      intro z hz
      rcases mem_insertTriple.mp hz with rfl | hz
      · rcases tripleLe_total y z with h' | h'
        · exact absurd h' h
        · exact h'
      · exact hl.1 z hz

theorem pairwise_sortTriples (l : List (Nat × Nat × String)) :
    (sortTriples l).Pairwise (fun a b => tripleLe b a) := by
  induction l with
  | nil => simp [sortTriples]
  | cons x xs ih => exact pairwise_insertTriple ih

/-! ### Lemmas for the re-sort of the chosen sentences -/

theorem insertChosen_perm (x : Nat × String) :
    ∀ (l : List (Nat × String)), List.Perm (insertChosen x l) (x :: l) := by
  intro l
  induction l with
  | nil => exact List.Perm.refl _
  | cons y ys ih =>
    unfold insertChosen
    split_ifs with h
    · exact List.Perm.refl _
    · exact (List.Perm.cons y ih).trans (List.Perm.swap x y ys)

theorem sortChosen_perm : ∀ (l : List (Nat × String)), List.Perm (sortChosen l) l := by
  intro l
  induction l with
  | nil => exact List.Perm.refl _
  | cons x xs ih => exact (insertChosen_perm x (sortChosen xs)).trans (ih.cons x)

theorem insertChosen_eq_cons {x : Nat × String} {l : List (Nat × String)}
    (h : ∀ y ∈ l, x.1 ≤ y.1) : insertChosen x l = x :: l := by
  cases l with
  | nil => rfl
  | cons y ys =>
    unfold insertChosen
    rw [if_pos (h y (List.mem_cons_self _ _))]

theorem sortChosen_eq_of_sorted : ∀ {l : List (Nat × String)},
    l.Pairwise (fun a b => a.1 ≤ b.1) → sortChosen l = l := by
  intro l
  induction l with
  | nil => exact fun _ => rfl
  | cons x xs ih =>
    intro h
    rw [List.pairwise_cons] at h
    unfold sortChosen
    rw [ih h.2, insertChosen_eq_cons h.1]

/-! ### Lemmas for the stable descending count sort of `most_common` -/

theorem mem_insertCount {x y : String × Nat} :
    ∀ {l : List (String × Nat)}, y ∈ insertCount x l ↔ y = x ∨ y ∈ l := by
  intro l
  induction l with
  | nil => simp [insertCount]
  | cons a as ih =>
    unfold insertCount
    split_ifs with h
    · constructor
      · intro hy
        rcases List.mem_cons.mp hy with rfl | hy
        · exact Or.inl rfl
        · exact Or.inr hy
      · intro hy
        rcases hy with rfl | hy
        · exact List.mem_cons_self _ _
        · exact List.mem_cons_of_mem _ hy
    · constructor
      · intro hy
        rcases List.mem_cons.mp hy with rfl | hy
        · exact Or.inr (List.mem_cons_self _ _)
        · rcases ih.mp hy with rfl | hy
          · exact Or.inl rfl
          · exact Or.inr (List.mem_cons_of_mem _ hy)
      · intro hy
        rcases hy with rfl | hy
        · exact List.mem_cons_of_mem _ (ih.mpr (Or.inl rfl))
        · rcases List.mem_cons.mp hy with rfl | hy
          · exact List.mem_cons_self _ _
          · exact List.mem_cons_of_mem _ (ih.mpr (Or.inr hy))

theorem mem_sortByCountDesc {y : String × Nat} :
    ∀ {l : List (String × Nat)}, y ∈ sortByCountDesc l ↔ y ∈ l := by
  intro l
  induction l with
  | nil => simp [sortByCountDesc]
  | cons x xs ih =>
    unfold sortByCountDesc
    constructor
    · intro h
      rcases mem_insertCount.mp h with rfl | h
      · exact List.mem_cons_self _ _
      · exact List.mem_cons_of_mem _ (ih.mp h)
    · intro h
      rcases List.mem_cons.mp h with rfl | h
      · exact mem_insertCount.mpr (Or.inl rfl)
      · exact mem_insertCount.mpr (Or.inr (ih.mpr h))

/-- Inserting `x` keeps the descending-count and equal-count tie order,
provided `x` tie-orders before every present element of equal count.  The
function `f` is the tie priority (first-occurrence position). -/
theorem pairwise_insertCount (f : String × Nat → Nat) {x : String × Nat} :
    ∀ {l : List (String × Nat)},
      l.Pairwise (fun a b => b.2 < a.2 ∨ (a.2 = b.2 ∧ f a < f b)) →
      (∀ y ∈ l, x.2 = y.2 → f x < f y) →
      (insertCount x l).Pairwise (fun a b => b.2 < a.2 ∨ (a.2 = b.2 ∧ f a < f b)) := by
  intro l
  induction l with
  | nil =>
    intro _ _
    simp [insertCount]
  | cons y ys ih =>
    intro hl hx
    rw [List.pairwise_cons] at hl
    unfold insertCount
    split_ifs with h
    · refine List.Pairwise.cons ?_ (List.Pairwise.cons hl.1 hl.2)
      intro z hz
      rcases List.mem_cons.mp hz with rfl | hz
      · rcases Nat.lt_or_ge z.2 x.2 with h2 | h2
        · exact Or.inl h2
        · have he : x.2 = z.2 := Nat.le_antisymm h2 h
          exact Or.inr ⟨he, hx z (List.mem_cons_self _ _) he⟩
      · have hyz := hl.1 z hz
        have hz2 : z.2 ≤ y.2 := by
          rcases hyz with h2 | ⟨h2, _⟩
          · exact Nat.le_of_lt h2
          · exact Nat.le_of_eq h2.symm
        rcases Nat.lt_or_ge z.2 x.2 with h2 | h2
        · exact Or.inl h2
        · have he : x.2 = z.2 := Nat.le_antisymm h2 (hz2.trans h)
          exact Or.inr ⟨he, hx z (List.mem_cons_of_mem _ hz) he⟩
    · refine List.Pairwise.cons ?_ (ih hl.2 (fun z hz => hx z (List.mem_cons_of_mem _ hz)))
      intro z hz
      rcases mem_insertCount.mp hz with rfl | hz
      · exact Or.inl (Nat.lt_of_not_le h)
      · exact hl.1 z hz

theorem pairwise_sortByCountDesc (f : String × Nat → Nat) :
    ∀ {l : List (String × Nat)},
      l.Pairwise (fun a b => a.2 = b.2 → f a < f b) →
      (sortByCountDesc l).Pairwise (fun a b => b.2 < a.2 ∨ (a.2 = b.2 ∧ f a < f b)) := by
  intro l
  induction l with
  | nil =>
    intro _
    simp [sortByCountDesc]
  | cons x xs ih =>
    intro hl
    rw [List.pairwise_cons] at hl
    refine pairwise_insertCount f (ih hl.2) ?_
    intro y hy he
    exact hl.1 y (mem_sortByCountDesc.mp hy) he

/-! ### First-occurrence order of counter keys -/

theorem firstIdx_cons_ne {v w : String} (h : v ≠ w) (l : List String) :
    firstIdx w (v :: l) = firstIdx w l + 1 := by
  simp [firstIdx, h]

theorem mem_of_mem_firstKeys : ∀ {l : List String} {w : String}, w ∈ firstKeys l → w ∈ l := by
  intro l
  induction l with
  | nil =>
    intro w hw
    simp [firstKeys] at hw
  | cons v vs ih =>
    intro w hw
    unfold firstKeys at hw
    rcases List.mem_cons.mp hw with rfl | hw
    · exact List.mem_cons_self _ _
    · exact List.mem_cons_of_mem _ (ih (List.mem_of_mem_filter hw))

theorem pairwise_firstIdx_firstKeys :
    ∀ (l : List String), (firstKeys l).Pairwise (fun a b => firstIdx a l < firstIdx b l) := by
  intro l
  induction l with
  | nil => simp [firstKeys]
  | cons v vs ih =>
    unfold firstKeys
    refine List.Pairwise.cons ?_ ?_
    · intro b hb
      have hbne : b ≠ v := by
        have hfb := List.of_mem_filter hb
        simpa using hfb
      have h0 : firstIdx v (v :: vs) = 0 := by
        simp [firstIdx]
      rw [h0, firstIdx_cons_ne (Ne.symm hbne)]
      omega
    · have hsub : List.Sublist ((firstKeys vs).filter (fun x => !(x == v))) (firstKeys vs) :=
        List.filter_sublist _
      have hp := List.Pairwise.sublist hsub ih
      refine hp.imp_of_mem ?_
      intro a b ha hb hab
      have hane : a ≠ v := by
        have := List.of_mem_filter ha
        simpa using this
      have hbne : b ≠ v := by
        have := List.of_mem_filter hb
        simpa using this
      rw [firstIdx_cons_ne (Ne.symm hane), firstIdx_cons_ne (Ne.symm hbne)]
      omega

/-- Filtering a list preserves the relative first-occurrence order of the
elements that survive the filter. -/
theorem firstIdx_lt_of_filter {p : String → Bool} :
    ∀ {l : List String} {a b : String}, a ∈ l.filter p → b ∈ l.filter p →
      firstIdx a (l.filter p) < firstIdx b (l.filter p) → firstIdx a l < firstIdx b l := by
  intro l
  induction l with
  | nil =>
    intro a b ha _ _
    simp at ha
  | cons c cs ih =>
    intro a b ha hb hlt
    by_cases hpc : p c = true
    · rw [List.filter_cons_of_pos hpc] at ha hb hlt
      by_cases hca : c = a
      · subst hca
        have hcb : c ≠ b := by
          intro hcb
          subst hcb
          simp [firstIdx] at hlt
        rw [show firstIdx c (c :: cs) = 0 by simp [firstIdx]]
        rw [firstIdx_cons_ne hcb]
        omega
      · by_cases hcb : c = b
        · subst hcb
          rw [firstIdx_cons_ne hca,
            show firstIdx c (c :: cs.filter p) = 0 by simp [firstIdx]] at hlt
          omega
        · rw [firstIdx_cons_ne hca, firstIdx_cons_ne hcb] at hlt
          have ha2 : a ∈ cs.filter p := by
            rcases List.mem_cons.mp ha with h | h
            · exact absurd h.symm hca
            · exact h
          have hb2 : b ∈ cs.filter p := by
            rcases List.mem_cons.mp hb with h | h
            · exact absurd h.symm hcb
            · exact h
          rw [firstIdx_cons_ne hca, firstIdx_cons_ne hcb]
          have := ih ha2 hb2 (by omega)
          omega
    · rw [List.filter_cons_of_neg hpc] at ha hb hlt
      have hca : c ≠ a := by
        intro h
        subst h
        exact hpc ((List.mem_filter.mp ha).2)
      have hcb : c ≠ b := by
        intro h
        subst h
        exact hpc ((List.mem_filter.mp hb).2)
      rw [firstIdx_cons_ne hca, firstIdx_cons_ne hcb]
      have := ih ha hb hlt
      omega

theorem fst_mem_of_mem_counter {w : List String} {q : String × Nat}
    (hq : q ∈ counter w) : q.1 ∈ w := by
  unfold counter at hq
  rcases List.mem_map.mp hq with ⟨k, hk, hqk⟩
  rw [← hqk]
  exact mem_of_mem_firstKeys hk

theorem pairwise_firstIdx_counter (w : List String) :
    (counter w).Pairwise (fun a b => firstIdx a.1 w < firstIdx b.1 w) := by
  unfold counter
  rw [List.pairwise_map]
  exact pairwise_firstIdx_firstKeys w

/-! ### Enumerate lemmas -/

theorem le_fst_of_mem_enumFrom {α : Type} {p : Nat × α} :
    ∀ {l : List α} {n : Nat}, p ∈ l.enumFrom n → n ≤ p.1 := by
  intro l
  induction l with
  | nil =>
    intro n h
    simp [List.enumFrom] at h
  | cons x xs ih =>
    intro n h
    rw [List.enumFrom_cons] at h
    rcases List.mem_cons.mp h with rfl | h
    · exact Nat.le_refl _
    · exact Nat.le_of_succ_le (ih h)

theorem pairwise_fst_lt_enumFrom {α : Type} :
    ∀ (l : List α) (n : Nat), (l.enumFrom n).Pairwise (fun p q => p.1 < q.1) := by
  intro l
  induction l with
  | nil =>
    intro n
    simp [List.enumFrom]
  | cons x xs ih =>
    intro n
    rw [List.enumFrom_cons]
    refine List.Pairwise.cons ?_ (ih (n + 1))
    intro q hq
    exact Nat.lt_of_succ_le (le_fst_of_mem_enumFrom hq)

/-! ### Structure of the summarizer pipeline -/

theorem scoredSentences_map_snd (text : String) :
    (scoredSentences text).map (fun t => t.2.2) = splitSentences (pyStrip text.toList) := by
  unfold scoredSentences
  rw [List.map_map]
  exact List.enumFrom_map_snd 0 _

theorem pairwise_fst_lt_scoredSentences (text : String) :
    (scoredSentences text).Pairwise (fun a b => a.2.1 < b.2.1) := by
  unfold scoredSentences
  rw [List.pairwise_map]
  exact pairwise_fst_lt_enumFrom _ 0

theorem pairwise_summarySentences (text : String) (k : Int) :
    (summarySentences text k).Pairwise (fun a b => a.1 < b.1) := by
  have h2 : ((scoredSentences text).filter
      (fun t => ((pySlice k (sortTriples (scoredSentences text))).map
        (fun t => t.2.2)).contains t.2.2)).Pairwise (fun a b => a.2.1 < b.2.1) :=
    (pairwise_fst_lt_scoredSentences text).filter _
  have h3 : (((scoredSentences text).filter
      (fun t => ((pySlice k (sortTriples (scoredSentences text))).map
        (fun t => t.2.2)).contains t.2.2)).map
        (fun t => (t.2.1, t.2.2))).Pairwise (fun a b => a.1 < b.1) :=
    List.pairwise_map.mpr h2
  show (sortChosen _).Pairwise _
  rw [sortChosen_eq_of_sorted (h3.imp (fun h => Nat.le_of_lt h))]
  exact h3

theorem summarySentences_zero (text : String) : summarySentences text 0 = [] := by
  show sortChosen (((scoredSentences text).filter
      (fun t => ((pySlice (0 : Int) (sortTriples (scoredSentences text))).map
        (fun t => t.2.2)).contains t.2.2)).map (fun t => (t.2.1, t.2.2))) = []
  have h1 : pySlice (0 : Int) (sortTriples (scoredSentences text)) = [] := by
    unfold pySlice
    rw [if_pos (le_refl (0 : Int))]
    rfl
  rw [h1]
  have h2 : ((scoredSentences text).filter
      (fun t => (([] : List (Nat × Nat × String)).map (fun t => t.2.2)).contains t.2.2)) = [] := by
    rw [List.filter_eq_nil_iff]
    intro a _
    simp
  rw [h2]
  rfl

theorem summarySentences_eq (text : String) (k : Int) :
    summarySentences text k = sortChosen ((chosenPre text k).map (fun t => (t.2.1, t.2.2))) :=
  rfl

/-! ### Claim theorems -/

/-- C5: for every document and topN, the ranked word list of `top_words` is
ordered by count descending, and among equal counts by position of first
occurrence in the document token stream (stable tie-breaking); in
particular `top_words "cat cat dog dog" 2 = [("cat", 2), ("dog", 2)]`. -/
theorem claim_C5 (text : String) (n : Int) :
    (top_words text n).Pairwise (tieOrdered text) ∧
      top_words "cat cat dog dog" 2 = [("cat", 2), ("dog", 2)] := by
  constructor
  · have h1 := pairwise_firstIdx_counter (filteredWords text)
    have h2 : (counter (filteredWords text)).Pairwise
        (fun a b => a.2 = b.2 →
          firstIdx a.1 (tokenize text) < firstIdx b.1 (tokenize text)) := by
      refine h1.imp_of_mem ?_
      intro a b ha hb hab _
      exact firstIdx_lt_of_filter (fst_mem_of_mem_counter ha) (fst_mem_of_mem_counter hb) hab
    have h3 := pairwise_sortByCountDesc (fun p => firstIdx p.1 (tokenize text)) h2
    have h4 : List.Sublist (top_words text n)
        (sortByCountDesc (counter (filteredWords text))) :=
      List.take_sublist _ _
    exact (List.Pairwise.sublist h4 h3).imp (fun h => h)
  · decide

/-- C6: no pair returned by `top_words` has a stopword token, and a document
whose tokens are all stopwords yields the empty list. -/
theorem claim_C6 (text : String) (n : Int) :
    (∀ p ∈ top_words text n, p.1 ∉ STOPWORDS) ∧
      ((∀ w ∈ tokenize text, w ∈ STOPWORDS) → top_words text n = []) := by
  constructor
  · intro p hp
    have hp1 : p ∈ sortByCountDesc (counter (filteredWords text)) :=
      List.take_subset _ _ hp
    have hp2 : p ∈ counter (filteredWords text) := mem_sortByCountDesc.mp hp1
    unfold counter at hp2
    rcases List.mem_map.mp hp2 with ⟨k, hk, hpk⟩
    have hk2 : k ∈ filteredWords text := mem_of_mem_firstKeys hk
    unfold filteredWords at hk2
    have hk3 := (List.mem_filter.mp hk2).2
    have hk4 : k ∉ STOPWORDS := by
      intro hmem
      have hc : STOPWORDS.contains k = true := List.elem_iff.mpr hmem
      rw [hc] at hk3
      simp at hk3
    rw [← hpk]
    exact hk4
  · intro h
    have hf : filteredWords text = [] := by
      unfold filteredWords
      rw [List.filter_eq_nil_iff]
      intro w hw
      simpa using h w hw
    unfold top_words
    rw [hf]
    simp [counter, firstKeys, sortByCountDesc]

/-- C6 witness: a concrete instantiation of both parts of `claim_C6`. -/
theorem claim_C6_witness :
    (("cat", 2) ∈ top_words "cat the cat" 5 ∧ ("cat", 2).1 ∉ STOPWORDS) ∧
      ((∀ w ∈ tokenize "the and of", w ∈ STOPWORDS) ∧ top_words "the and of" 3 = []) :=
  ⟨⟨by decide, (claim_C6 "cat the cat" 5).1 ("cat", 2) (by decide)⟩,
   ⟨by decide, (claim_C6 "the and of" 3).2 (by decide)⟩⟩

/-- C8: every sentence of the summary selection is verbatim one of the
sentences obtained by splitting the document, and no sentence occurs in the
selection more often than among the split sentences: the multiset of chosen
sentence texts is bounded by the multiset of split sentences. -/
theorem claim_C8 (text : String) (k : Int) (s : String) :
    ((summarySentences text k).map (fun p => p.2)).count s ≤
      (splitSentences (pyStrip text.toList)).count s := by
  rw [summarySentences_eq]
  have hperm := (sortChosen_perm ((chosenPre text k).map
    (fun t => (t.2.1, t.2.2)))).map (fun p : Nat × String => p.2)
  rw [hperm.count_eq s, List.map_map]
  have hcomp : ((fun p : Nat × String => p.2) ∘
      (fun t : Nat × Nat × String => (t.2.1, t.2.2))) =
      (fun t : Nat × Nat × String => t.2.2) := rfl
  rw [hcomp]
  have hsub : List.Sublist ((chosenPre text k).map (fun t : Nat × Nat × String => t.2.2))
      ((scoredSentences text).map (fun t => t.2.2)) :=
    List.Sublist.map _ (List.filter_sublist _)
  rw [scoredSentences_map_snd] at hsub
  exact hsub.count_le s

/-- C9: a non-positive topN, negative values included, makes `top_words`
return the empty list (no exception is possible: the function is total). -/
theorem claim_C9 (text : String) (n : Int) (h : n ≤ 0) : top_words text n = [] := by
  unfold top_words
  rw [Int.toNat_of_nonpos h]
  exact List.take_zero _

/-- C9 witness: `top_words` on a negative topN at a concrete document. -/
theorem claim_C9_witness : (-3 : Int) ≤ 0 ∧ top_words "cat cat dog" (-3) = [] :=
  ⟨by decide, claim_C9 "cat cat dog" (-3) (by decide)⟩

/-- C10: a run of three apostrophes is a token: the tokenizer extracts it, it
is not a stopword, the frequency table counts it, it contributes to sentence
scores, and it appears in the output of `top_words`. -/
theorem claim_C10 :
    tokenize C10doc = [apostropheRun, apostropheRun, "cat"] ∧
      apostropheRun ∉ STOPWORDS ∧
      (filteredWords C10doc).count apostropheRun = 2 ∧
      sentenceScore (filteredWords C10doc) apostropheRun = 2 ∧
      top_words C10doc 2 = [(apostropheRun, 2), ("cat", 1)] :=
  ⟨by decide, by decide, by decide, by decide, by decide⟩

/-- C7: selected sentences are re-sorted by original index ascending, so a
sentence appearing earlier in the document precedes a later one in the
summary, and on the selection branch the summary is exactly these sentences
joined with a single space. -/
theorem claim_C7 (text : String) (k : Int) :
    (summarySentences text k).Pairwise (fun a b => a.1 < b.1) ∧
      (text ≠ "" → ¬ wordCount text < 20 →
        ¬ ((splitSentences (pyStrip text.toList)).length : Int) ≤ k →
        quick_summarize text k =
          String.intercalate " " ((summarySentences text k).map (fun p => p.2))) := by
  refine ⟨pairwise_summarySentences text k, ?_⟩
  intro h1 h2 h3
  unfold quick_summarize
  rw [if_neg (not_or.mpr ⟨h1, h2⟩), if_neg h3]

/-- C7 witness: both parts of `claim_C7` at a concrete document. -/
theorem claim_C7_witness :
    (summarySentences C7doc 1).Pairwise (fun a b => a.1 < b.1) ∧
      quick_summarize C7doc 1 =
        String.intercalate " " ((summarySentences C7doc 1).map (fun p => p.2)) :=
  ⟨(claim_C7 C7doc 1).1, (claim_C7 C7doc 1).2 (by decide) (by decide) (by decide)⟩

/-- C2 counterexample: with ten identical sentences and maxSentences 1,
none of the early-return conditions holds, yet the summary selection keeps
ten sentences (the `s in top` test matches every copy), so the returned
summary has ten sentences, not at most one. -/
theorem claim_C2_counterexample :
    C2doc ≠ "" ∧ ¬ wordCount C2doc < 20 ∧
      ¬ ((splitSentences (pyStrip C2doc.toList)).length : Int) ≤ 1 ∧
      (summarySentences C2doc 1).length = 10 ∧
      (splitSentences (pyStrip (quick_summarize C2doc 1).toList)).length = 10 :=
  ⟨by decide, by decide, by decide, by decide, by decide⟩

/-- C2 amended: when the split sentences of the document are pairwise
distinct (so the `s in top` membership test matches each selected sentence
exactly once), the summary selection of `quick_summarize` has at most
maxSentences entries, for every maxSentences at least 1. -/
theorem claim_C2 (text : String) (k : Int) (hk : 1 ≤ k)
    (hnd : (splitSentences (pyStrip text.toList)).Nodup) :
    ((summarySentences text k).length : Int) ≤ k := by
  rw [summarySentences_eq, (sortChosen_perm _).length_eq, List.length_map]
  have hmap : ((chosenPre text k).map (fun t : Nat × Nat × String => t.2.2)).Nodup := by
    have hsub : List.Sublist ((chosenPre text k).map (fun t : Nat × Nat × String => t.2.2))
        ((scoredSentences text).map (fun t => t.2.2)) :=
      List.Sublist.map _ (List.filter_sublist _)
    rw [scoredSentences_map_snd] at hsub
    exact List.Nodup.sublist hsub hnd
  have hsubset : ∀ x ∈ (chosenPre text k).map (fun t : Nat × Nat × String => t.2.2),
      x ∈ (pySlice k (sortTriples (scoredSentences text))).map
        (fun t : Nat × Nat × String => t.2.2) := by
    intro x hx
    rcases List.mem_map.mp hx with ⟨t, ht, rfl⟩
    have hf := (List.mem_filter.mp ht).2
    exact List.elem_iff.mp hf
  have hsp := List.subperm_of_subset hmap hsubset
  have hlen := hsp.length_le
  rw [List.length_map, List.length_map] at hlen
  have htop : (pySlice k (sortTriples (scoredSentences text))).length ≤ k.toNat := by
    unfold pySlice
    rw [if_pos (show (0 : Int) ≤ k by omega)]
    rw [List.length_take]
    exact Nat.min_le_left _ _
  have hle : (chosenPre text k).length ≤ k.toNat := hlen.trans htop
  have hk0 : ((k.toNat : Int)) = k := Int.toNat_of_nonneg (by omega)
  omega

/-- C2 witness: `claim_C2` at a concrete two-sentence document. -/
theorem claim_C2_witness :
    ((1 : Int) ≤ 1 ∧ (splitSentences (pyStrip "Hi. Bye.".toList)).Nodup) ∧
      ((summarySentences "Hi. Bye." 1).length : Int) ≤ 1 :=
  ⟨⟨by decide, by decide⟩, claim_C2 "Hi. Bye." 1 (by decide) (by decide)⟩

/-- C1 counterexample: in `C1doc` the second and third sentence tie at
score 9, and `quick_summarize` with maxSentences 1 returns the third
sentence, the one with the higher original index, not the lower one. -/
theorem claim_C1_counterexample :
    splitSentences (pyStrip C1doc.toList) =
      ["the the the the the the the the the the the the the the the the the the the the.",
       "cat cat y.", "cat cat z."] ∧
      sentenceScore (filteredWords C1doc) "cat cat y." =
        sentenceScore (filteredWords C1doc) "cat cat z." ∧
      quick_summarize C1doc 1 = "cat cat z." ∧
      "cat cat z." ≠ "cat cat y." :=
  ⟨by decide, by decide, by decide, by decide⟩

/-- C1 amended: the sort of `sorted(scores, reverse=True)` orders the
candidate triples by score descending and, among equal scores, by original
index DESCENDING, so on ties the sentence with the higher original index
is selected by the top slice. -/
theorem claim_C1 (text : String) :
    (sortTriples (scoredSentences text)).Pairwise
      (fun a b => b.1 < a.1 ∨ (b.1 = a.1 ∧ b.2.1 ≤ a.2.1)) := by
  refine (pairwise_sortTriples (scoredSentences text)).imp ?_
  intro a b h
  rcases h with h | ⟨e, h⟩
  · exact Or.inl h
  · refine Or.inr ⟨e, ?_⟩
    rcases h with h | ⟨e2, _⟩
    · exact Nat.le_of_lt h
    · exact Nat.le_of_eq e2

/-- C3 counterexample: `quick_summarize` does not clamp a non-positive
maxSentences to 1: on `C3doc` (which reaches the selection branch) the
value 0 yields the empty string while the value 1 yields a sentence. -/
theorem claim_C3_counterexample :
    quick_summarize C3doc 0 = "" ∧ quick_summarize C3doc 1 = "cat cat z." ∧
      ("" : String) ≠ "cat cat z." :=
  ⟨by decide, by decide, by decide⟩

/-- C3 amended: a maxSentences of 0 never crashes (the function is total),
but it is not clamped to 1: on any document that reaches the selection
branch the top slice is empty, so the summary is the empty string. -/
theorem claim_C3 (text : String) (h1 : text ≠ "") (h2 : ¬ wordCount text < 20)
    (h3 : ¬ ((splitSentences (pyStrip text.toList)).length : Int) ≤ 0) :
    quick_summarize text 0 = "" := by
  unfold quick_summarize
  rw [if_neg (not_or.mpr ⟨h1, h2⟩), if_neg h3, summarySentences_zero]
  rfl

/-- C3 witness: `claim_C3` at a concrete document. -/
theorem claim_C3_witness :
    (C3doc ≠ "" ∧ ¬ wordCount C3doc < 20 ∧
        ¬ ((splitSentences (pyStrip C3doc.toList)).length : Int) ≤ 0) ∧
      quick_summarize C3doc 0 = "" :=
  ⟨⟨by decide, by decide, by decide⟩, claim_C3 C3doc (by decide) (by decide) (by decide)⟩

/-- C4 counterexample: the fallback conditions are not the only way the
input comes back unchanged: on `C4doc` (eleven copies of one sentence,
single-spaced) none of the three conditions holds, the selection branch
runs, and rejoining the chosen sentences reproduces the document exactly. -/
theorem claim_C4_counterexample :
    C4doc ≠ "" ∧ ¬ wordCount C4doc < 20 ∧
      ¬ ((splitSentences (pyStrip C4doc.toList)).length : Int) ≤ 3 ∧
      quick_summarize C4doc 3 = C4doc :=
  ⟨by decide, by decide, by decide, by decide⟩

/-- C4 amended: IF the document is empty, or its whitespace word count is
below 20, or its sentence count is at most maxSentences, THEN
`quick_summarize` returns the input unchanged (the converse fails). -/
theorem claim_C4 (text : String) (k : Int)
    (h : text = "" ∨ wordCount text < 20 ∨
      ((splitSentences (pyStrip text.toList)).length : Int) ≤ k) :
    quick_summarize text k = text := by
  unfold quick_summarize
  by_cases h1 : text = "" ∨ wordCount text < 20
  · rw [if_pos h1]
  · have h3 : ((splitSentences (pyStrip text.toList)).length : Int) ≤ k := by tauto
    rw [if_neg h1, if_pos h3]

/-- C4 witness: the fallback scenario of the spec, a two-sentence document with
maxSentences 3. -/
theorem claim_C4_witness :
    (("Hi. Bye." : String) = "" ∨ wordCount "Hi. Bye." < 20 ∨
        ((splitSentences (pyStrip "Hi. Bye.".toList)).length : Int) ≤ 3) ∧
      quick_summarize "Hi. Bye." 3 = "Hi. Bye." :=
  ⟨by decide, claim_C4 "Hi. Bye." 3 (by decide)⟩

end App
